import Mathlib

/-!
# Verification of the ImportReformat contact-mapping heuristics

A shallow embedding of the `ContactDataProcessor` row-mapping logic of the
ImportReformat repository (the `formatRow` variants of `src/unnamed/part_000`
and of the two revisions in `src/src/app/page.tsx`), together with theorems
checking the natural-language specification against it.

Modelling conventions:
* A raw spreadsheet row (a JavaScript object produced by `sheet_to_json`)
  is an ordered association list `List (String × String)`; its key list in
  insertion order plays the role of `Object.keys(row)`.  Rows coming from a
  real sheet have pairwise distinct keys, which theorems assume explicitly
  where it matters.
* JavaScript strings are modelled by `String` (≅ `List Char`); `split`,
  `join`, `trim`, `toLowerCase`, `includes` are modelled by the char-list
  functions below.
* `new Date(string)` is modelled by the ECMAScript date-time string format
  restricted to its date-only ISO form `YYYY-MM-DD`; every other string is
  treated as unparseable (`Invalid Date`), which matches the engine on all
  inputs exercised here.
-/

namespace ImportReformat

/-- A raw row: ordered (column header, cell value) pairs, string cells. -/
abbrev RawRow := List (String × String)

/-- `row[k]` for a key `k` known to be (or tested to be) present; JS property
lookup on an object built by `sheet_to_json`, whose keys are unique, so the
value is the one of the first (only) entry with that key.  A missing key
yields `undefined`, which every use site turns into `""` (via `|| ""` or
truthiness guards), so we default to `""`. -/
def lookupKey (row : RawRow) (k : String) : String :=
  match row.find? (fun kv => kv.1 == k) with
  | some kv => kv.2
  | none => ""

/-- Does the second char list start with the first? -/
def startsWithChars : List Char → List Char → Bool
  | [], _ => true
  | _ :: _, [] => false
  | p :: ps, c :: cs => p == c && startsWithChars ps cs

/-- Does `pat` occur contiguously in the char list? -/
def occursIn (pat : List Char) : List Char → Bool
  | [] => pat.isEmpty
  | c :: cs => startsWithChars pat (c :: cs) || occursIn pat cs

/-- `s.includes(pat)` of JavaScript: `pat` occurs in `s` as a contiguous
substring. -/
def jsIncludes (s pat : String) : Bool :=
  occursIn pat.toList s.toList

/-- `s.toLowerCase()` of JavaScript: lower-case every character. -/
def jsToLower (s : String) : String :=
  String.mk (s.toList.map Char.toLower)

/-- `s.trim()` of JavaScript: strip leading and trailing whitespace. -/
def jsTrim (s : String) : String :=
  String.mk (((s.toList.dropWhile Char.isWhitespace).reverse.dropWhile Char.isWhitespace).reverse)

/-- `getColumnValue` (src/unnamed/part_000 lines 11-14, identically the
`getColumnValue` method of the first page.tsx revision lines 41-44):
`Object.keys(row).find(key => key.toLowerCase().includes(columnName.toLowerCase()))`,
then `foundColumn ? row[foundColumn] : ""`.  The inner `if` models the JS
truthiness test on the found key (an empty-string key is falsy). -/
def getColumnValue (row : RawRow) (columnName : String) : String :=
  match (row.map Prod.fst).find? (fun key => jsIncludes (jsToLower key) (jsToLower columnName)) with
  | some k => if k == "" then "" else lookupKey row k
  | none => ""

/-- Keyword list of `isDateOfBirthField` (part_000 line 48). -/
def DOB_KEYWORDS : List String := ["birth", "dob", "date of birth", "birth date"]

/-- `isDateOfBirthField` (part_000 lines 47-50):
`keywords.some(keyword => columnName.toLowerCase().includes(keyword))`. -/
def isDateOfBirthField (columnName : String) : Bool :=
  DOB_KEYWORDS.any (fun keyword => jsIncludes (jsToLower columnName) keyword)

/-- Keyword list of `isPhoneField` (part_000 line 54). -/
def PHONE_KEYWORDS : List String := ["phone", "mobile", "contact", "telephone"]

/-- `isPhoneField` (part_000 lines 53-56). -/
def isPhoneField (columnName : String) : Bool :=
  PHONE_KEYWORDS.any (fun keyword => jsIncludes (jsToLower columnName) keyword)

/-! ## Date normalisation -/

/-- Length of month `m` of (proleptic Gregorian) year `y`. -/
def daysInMonth (y m : Nat) : Nat :=
  if m = 2 then (if y % 4 = 0 ∧ (y % 100 ≠ 0 ∨ y % 400 = 0) then 29 else 28)
  else if m = 4 ∨ m = 6 ∨ m = 9 ∨ m = 11 then 30 else 31

/-- Numeric value of a decimal digit character. -/
def digitVal (c : Char) : Nat := c.toNat - 48

/-- Models `new Date(string)` of ECMAScript restricted to the date-only ISO
form `YYYY-MM-DD` of the Date Time String Format (`some (y, m, d)` exactly
when the string is ten characters `DDDD-DD-DD` denoting a real calendar
date); every other string is modelled as producing an `Invalid Date`
(`none`), as the engine does on the inputs exercised in this development. -/
def jsDateParse (s : String) : Option (Nat × Nat × Nat) :=
  match s.toList with
  | [y1, y2, y3, y4, '-', m1, m2, '-', d1, d2] =>
    if y1.isDigit && y2.isDigit && y3.isDigit && y4.isDigit &&
       m1.isDigit && m2.isDigit && d1.isDigit && d2.isDigit then
      let y := ((digitVal y1 * 10 + digitVal y2) * 10 + digitVal y3) * 10 + digitVal y4
      let m := digitVal m1 * 10 + digitVal m2
      let d := digitVal d1 * 10 + digitVal d2
      if 1 ≤ m ∧ m ≤ 12 ∧ 1 ≤ d ∧ d ≤ daysInMonth y m then some (y, m, d) else none
    else none
  | _ => none

/-- Two-digit zero padding. -/
def pad2 (n : Nat) : String := if n < 10 then "0" ++ toString n else toString n

/-- Four-digit zero padding. -/
def pad4 (n : Nat) : String :=
  if n < 10 then "000" ++ toString n
  else if n < 100 then "00" ++ toString n
  else if n < 1000 then "0" ++ toString n
  else toString n

/-- `parsedDate.toISOString().split("T")[0]`: the calendar-date prefix of the
ISO rendering of a (UTC-midnight) date. -/
def isoOfYmd : Nat × Nat × Nat → String
  | (y, m, d) => pad4 y ++ "-" ++ pad2 m ++ "-" ++ pad2 d

/-- The shared date-normalisation step (part_000 lines 74-79, page.tsx lines
61-66 and 236-241): `new Date(raw)`, then the ISO date on success and the
raw text unchanged on failure. -/
def normalizeDOB (raw : String) : String :=
  match jsDateParse raw with
  | some ymd => isoOfYmd ymd
  | none => raw

/-! ## JavaScript string splitting -/

/-- `s.split(sep)` for a one-character separator class: cut at every
character satisfying `p`, keeping empty segments; never returns `[]`
(`"".split` is `[""]`). -/
def splitChars (p : Char → Bool) : List Char → List (List Char)
  | [] => [[]]
  | c :: cs =>
    match splitChars p cs with
    | [] => [[]]
    | t :: ts => if p c then [] :: t :: ts else (c :: t) :: ts

/-- `parts.join(sep)`. -/
def joinWith (sep : List Char) : List (List Char) → List Char
  | [] => []
  | [x] => x
  | x :: xs => x ++ sep ++ joinWith sep xs

/-- `s.split(/\s+/)` of JavaScript: the maximal runs of non-whitespace
characters, with one empty segment at the front when the string starts with
whitespace and one at the back when it ends with whitespace, and `[""]` for
the empty string. -/
def jsSplitWsRuns (s : String) : List String :=
  let cs := s.toList
  if cs.isEmpty then [""]
  else
    let toks := (splitChars Char.isWhitespace cs).filter (fun t => !t.isEmpty)
    let pre := if (cs.headD 'x').isWhitespace then [[]] else ([] : List (List Char))
    let post := if (cs.getLastD 'x').isWhitespace then [[]] else ([] : List (List Char))
    (pre ++ toks ++ post).map (fun t => String.mk t)

/-! ## Stage constants and validation -/

/-- `FILE_CONSTANTS.VALID_STAGES`. -/
def VALID_STAGES : List String := ["Active Lead", "Business Partner Only", "Prospect", "Client"]

/-- `FILE_CONSTANTS.DEFAULT_STAGE`. -/
def DEFAULT_STAGE : String := "Prospect"

/-- The stage-validation step (second page.tsx revision line 272):
`VALID_STAGES.includes(row["BorrowerStage.Name"]) ? row["BorrowerStage.Name"] : DEFAULT_STAGE`;
`none` models an absent key (`includes(undefined)` is `false`). -/
def validateStage : Option String → String
  | some s => if VALID_STAGES.contains s then s else DEFAULT_STAGE
  | none => DEFAULT_STAGE

/-! ## The keyword-driven row mapper (src/unnamed/part_000, `formatRow`) -/

/-- The normalised output record of the keyword-driven revisions (the
`FormattedRow` interface of part_000 / first page.tsx revision); the TS keys
`"BorrowerStage.Name"` and `"PartnerType.Name"` become `BorrowerStageName`
and `PartnerTypeName`, and `extras` is the open extension area built by the
unmapped-column passthrough. -/
structure FormattedRow where
  FirstName : String
  LastName : String
  Email : String
  Phone : String
  Street : String
  City : String
  ProvinceState : String
  PostalCodeZip : String
  DateOfBirth : String
  BorrowerStageName : String
  PartnerTypeName : String
  LeadSource : String
  Campaign : String
  TempNote : String
  FirmName : String
  extras : List (String × String)
deriving Repr, DecidableEq

/-- The own property names of the `result` object right after its literal
construction (part_000 lines 106-122, first page.tsx revision lines 85-101):
what `result.hasOwnProperty(key)` initially tests against. -/
def RESULT_KEYS : List String :=
  ["FirstName", "LastName", "Email", "Phone", "Street", "City", "ProvinceState",
   "PostalCodeZip", "DateOfBirth", "BorrowerStage.Name", "PartnerType.Name",
   "LeadSource", "Campaign", "TempNote", "FirmName"]

/-- The Date-of-Birth detection loop (part_000 lines 70-81):
`Object.keys(row).forEach`, overwriting `DateOfBirth` at every key that
matches the DOB keywords, so the last matching key's (normalised) value
remains. -/
def detectDOBV1 (row : RawRow) : String :=
  (row.map Prod.fst).foldl
    (fun acc key => if isDateOfBirthField key then normalizeDOB (lookupKey row key) else acc) ""

/-- The phone detection loop (part_000 lines 84-89), same overwrite shape. -/
def detectPhoneV1 (row : RawRow) : String :=
  (row.map Prod.fst).foldl
    (fun acc key => if isPhoneField key then lookupKey row key else acc) ""

/-- The strict unmapped-column passthrough (part_000 lines 124-130): append
`(key, row[key])` for every key that is not an own property of the growing
result (initial field names or an already-added extra) and whose value is
truthy and nonempty after trimming. -/
def passthroughStrict (row : RawRow) : List (String × String) :=
  (row.map Prod.fst).foldl
    (fun extras key =>
      let v := lookupKey row key
      if !(RESULT_KEYS.contains key || extras.any (fun kv => kv.1 == key)) &&
          v != "" && jsTrim v != "" then
        extras ++ [(key, v)]
      else extras) []

/-- The body of the name-splitting step shared by part_000 (lines 60-67) and
the first page.tsx revision (lines 48-55): trim the combined name, and if
nonempty split on the single space character, `FirstName` being
`nameParts[0]` and `LastName` being `nameParts.slice(1).join(" ")`. -/
def splitTrimmedName (fullName : String) : String × String :=
  let t := jsTrim fullName
  if t = "" then ("", "")
  else
    let nameParts := splitChars (fun c => c == ' ') t.toList
    (String.mk (nameParts.headD []), String.mk (joinWith [' '] (nameParts.drop 1)))

/-- The full name resolution + split of part_000 / first page.tsx revision:
the resolved "First name" and "Last name" cells concatenated with a space. -/
def splitFullName (row : RawRow) : String × String :=
  splitTrimmedName (getColumnValue row "First name" ++ " " ++ getColumnValue row "Last name")

/-- `formatRow` of src/unnamed/part_000 (lines 58-133).  The `|| ""` on the
address lookups is the identity on the string values modelled here and is
dropped. -/
def formatRowV1 (row : RawRow) : FormattedRow :=
  let names := splitFullName row
  { FirstName := names.1
    LastName := names.2
    Email := getColumnValue row "Email"
    Phone := detectPhoneV1 row
    Street := getColumnValue row "Street"
    City := getColumnValue row "City"
    ProvinceState := getColumnValue row "Province"
    PostalCodeZip := getColumnValue row "PostalCode"
    DateOfBirth := detectDOBV1 row
    BorrowerStageName := DEFAULT_STAGE
    PartnerTypeName := getColumnValue row "Profession"
    LeadSource := ""
    Campaign := ""
    TempNote := getColumnValue row "Tag"
    FirmName := getColumnValue row "Company name"
    extras := passthroughStrict row }

/-! ## The first page.tsx revision (`formatRow`, lines 46-111) -/

/-- The permissive unmapped-column passthrough (first page.tsx revision
lines 103-108): append `(key, row[key])` for every key that is not an own
property of the growing result, with no emptiness filtering. -/
def passthroughAll (row : RawRow) : List (String × String) :=
  (row.map Prod.fst).foldl
    (fun extras key =>
      if !(RESULT_KEYS.contains key || extras.any (fun kv => kv.1 == key)) then
        extras ++ [(key, lookupKey row key)]
      else extras) []

/-- `formatRow` of the first page.tsx revision (lines 46-111): keyword
lookups throughout (`Phone number` and `Date Registered` instead of the
part_000 detection loops), permissive passthrough. -/
def formatRowV2 (row : RawRow) : FormattedRow :=
  let names := splitFullName row
  let rawDOB := getColumnValue row "Date Registered"
  { FirstName := names.1
    LastName := names.2
    Email := getColumnValue row "Email"
    Phone := getColumnValue row "Phone number"
    Street := getColumnValue row "Street"
    City := getColumnValue row "City"
    ProvinceState := getColumnValue row "ProvinceState"
    PostalCodeZip := getColumnValue row "PostalCodeZip"
    DateOfBirth := if rawDOB ≠ "" then normalizeDOB rawDOB else ""
    BorrowerStageName := DEFAULT_STAGE
    PartnerTypeName := getColumnValue row "Profession"
    LeadSource := ""
    Campaign := ""
    TempNote := getColumnValue row "Tag"
    FirmName := getColumnValue row "Company name"
    extras := passthroughAll row }

/-! ## The second page.tsx revision (`formatRow`, lines 222-277) -/

/-- The output record of the positional revision (its `FormattedRow`
interface, page.tsx lines 205-219); no extension area. -/
structure FormattedRow3 where
  FirstName : String
  LastName : String
  Email : String
  Phone : String
  Address : String
  City : String
  Province : String
  PostalCode : String
  DateOfBirth : String
  BorrowerStageName : String
  PartnerTypeName : String
  LeadSource : String
  Campaign : String
deriving Repr, DecidableEq

/-- `row[k]` when the key may be absent: `none` models `undefined`. -/
def lookupKeyOpt (row : RawRow) (k : String) : Option String :=
  (row.find? (fun kv => kv.1 == k)).map Prod.snd

/-- `row[Object.keys(row)[i]]`: the value stored under the `i`-th key of the
row; `""` when the row has at most `i` entries (`row[undefined]` is
`undefined`, turned into `""` by the use sites' `|| ""` / truthiness). -/
def valueAt (row : RawRow) (i : Nat) : String :=
  match (row.map Prod.fst).get? i with
  | some k => lookupKey row k
  | none => ""

/-- The address decomposition (page.tsx lines 245-260): split on `/[,\n]/`
and trim each part; with at least 3 parts assign positionally, otherwise
split on `/\s+/` and `pop()` the postal code, province and city off the
tail, the remainder rejoined as the street (`pop` on an exhausted array
yields `undefined`, hence `""`).  Result order:
(Address, City, Province, PostalCode). -/
def decomposeAddress (addr : String) : String × String × String × String :=
  let addressParts :=
    (splitChars (fun c => c == ',' || c == '\n') addr.toList).map (fun l => jsTrim (String.mk l))
  if addressParts.length < 3 then
    let spaceParts := jsSplitWsRuns addr
    let PostalCode := (spaceParts.getLast?).getD ""
    let rest1 := spaceParts.dropLast
    let Province := (rest1.getLast?).getD ""
    let rest2 := rest1.dropLast
    let City := (rest2.getLast?).getD ""
    let rest3 := rest2.dropLast
    (String.intercalate " " rest3, City, Province, PostalCode)
  else
    (addressParts.getD 0 "", addressParts.getD 1 "", addressParts.getD 2 "",
     if addressParts.length > 3 then addressParts.getD 3 "" else "")

/-- The positional name split (page.tsx lines 226-230): trim and split the
first column's value on the single space character; with more than one
segment `FirstName` is the first segment and `LastName` the rest rejoined,
otherwise `FirstName` is the raw (untrimmed) value and `LastName` empty. -/
def splitNameV3 (firstVal : String) : String × String :=
  let nameParts := splitChars (fun c => c == ' ') (jsTrim firstVal).toList
  if nameParts.length > 1 then
    (String.mk (nameParts.headD []), String.mk (joinWith [' '] (nameParts.drop 1)))
  else (firstVal, "")

/-- `formatRow` of the second page.tsx revision (lines 222-277): positional
name/DOB/phone/email columns, combined-address decomposition, and the
stage-validation step on the `"BorrowerStage.Name"` column.  The
`.toString()` on the raw DOB is the identity on the string cells modelled
here. -/
def formatRowV3 (row : RawRow) : FormattedRow3 :=
  let firstVal := valueAt row 0
  let names := if firstVal ≠ "" then splitNameV3 firstVal else ("", "")
  let secondVal := valueAt row 1
  let addr := lookupKey row "Address"
  let a := if addr ≠ "" then decomposeAddress addr else ("", "", "", "")
  { FirstName := names.1
    LastName := names.2
    Email := valueAt row 3
    Phone := valueAt row 2
    Address := a.1
    City := a.2.1
    Province := a.2.2.1
    PostalCode := a.2.2.2
    DateOfBirth := if secondVal ≠ "" then normalizeDOB secondVal else ""
    BorrowerStageName := validateStage (lookupKeyOpt row "BorrowerStage.Name")
    PartnerTypeName := lookupKey row "PartnerType.Name"
    LeadSource := lookupKey row "LeadSource"
    Campaign := lookupKey row "Campaign" }

/-! ## The mapping pass (`processFile`, the `rawData.map(row => this.formatRow(row))`
step; part_000 line 145, page.tsx lines 123 and 289).  File reading and
spreadsheet decoding are external collaborators and stay outside the model:
the pass itself is a `map` over the decoded row list. -/

/-- The part_000 mapping pass. -/
def processRowsV1 (rows : List RawRow) : List FormattedRow := rows.map formatRowV1

/-- The first page.tsx revision's mapping pass. -/
def processRowsV2 (rows : List RawRow) : List FormattedRow := rows.map formatRowV2

/-- The second page.tsx revision's mapping pass. -/
def processRowsV3 (rows : List RawRow) : List FormattedRow3 := rows.map formatRowV3

/-! ## Scalar-cell refinement of the part_000 mapper

`sheet_to_json` stores numeric cells as JavaScript numbers, not strings.
This refined model keeps the scalar shape of each cell so that the
JavaScript dynamic-type behaviour of `formatRow` — in particular the
`row[key].trim()` call of the strict passthrough, which throws a
`TypeError` on a number — is captured; a thrown `TypeError` is an
`Except.error`. -/

/-- A raw scalar cell as stored by the spreadsheet parser. -/
inductive Cell where
  | str (s : String)
  | num (n : Int)
deriving Repr, DecidableEq

/-- JavaScript truthiness of a cell (`""` and `0` are falsy). -/
def Cell.truthy : Cell → Bool
  | .str s => s != ""
  | .num n => n != 0

/-- JavaScript string coercion of a cell. -/
def Cell.toStr : Cell → String
  | .str s => s
  | .num n => toString n

/-- Is the cell a string? -/
def Cell.isStr : Cell → Bool
  | .str _ => true
  | .num _ => false

/-- A raw row with scalar cells. -/
abbrev CellRow := List (String × Cell)

/-- `row[k]` on a scalar row (missing-key `undefined` modelled as `""`, as
in `lookupKey`). -/
def lookupKeyC (row : CellRow) (k : String) : Cell :=
  match row.find? (fun kv => kv.1 == k) with
  | some kv => kv.2
  | none => .str ""

/-- `getColumnValue` on a scalar row. -/
def getColumnValueC (row : CellRow) (columnName : String) : Cell :=
  match (row.map Prod.fst).find? (fun key => jsIncludes (jsToLower key) (jsToLower columnName)) with
  | some k => if k == "" then .str "" else lookupKeyC row k
  | none => .str ""

/-- Proleptic Gregorian calendar date of day number `z` (days since
1970-01-01), the standard `civil_from_days` computation; used to model
`new Date(number).toISOString()`. -/
def civilFromDays (z : Int) : Nat × Nat × Nat :=
  let z' := z + 719468
  let era := z'.fdiv 146097
  let doe := (z' - era * 146097).toNat
  let yoe := (doe - doe / 1460 + doe / 36524 - doe / 146096) / 365
  let doy := doe - (365 * yoe + yoe / 4 - yoe / 100)
  let mp := (5 * doy + 2) / 153
  let d := doy - (153 * mp + 2) / 5 + 1
  let m := if mp < 10 then mp + 3 else mp - 9
  let y := era * 400 + yoe + (if m ≤ 2 then 1 else 0)
  (y.toNat, m, d)

/-- `new Date(cell)`: a string is parsed as a date string, a number is a
millisecond timestamp (any finite one giving a valid date, which suffices
for the rows considered here). -/
def jsNewDateCell : Cell → Option (Nat × Nat × Nat)
  | .str s => jsDateParse s
  | .num n => some (civilFromDays (n.fdiv 86400000))

/-- The DOB detection loop of part_000 on scalar cells: the normalised ISO
string on a parseable cell and the raw cell unchanged otherwise. -/
def detectDOBV1C (row : CellRow) : Cell :=
  (row.map Prod.fst).foldl
    (fun acc key =>
      if isDateOfBirthField key then
        let rawDOB := lookupKeyC row key
        match jsNewDateCell rawDOB with
        | some ymd => .str (isoOfYmd ymd)
        | none => rawDOB
      else acc) (.str "")

/-- The phone detection loop of part_000 on scalar cells. -/
def detectPhoneV1C (row : CellRow) : Cell :=
  (row.map Prod.fst).foldl
    (fun acc key => if isPhoneField key then lookupKeyC row key else acc) (.str "")

/-- The strict passthrough on scalar cells, with the JavaScript evaluation
order of `!result.hasOwnProperty(key) && row[key] && row[key].trim() !== ""`:
the `hasOwnProperty` and truthiness tests short-circuit before `.trim()` is
reached, and `.trim()` on a number throws. -/
def passthroughStrictC (row : CellRow) : Except String (List (String × Cell)) :=
  (row.map Prod.fst).foldlM
    (fun extras key =>
      let v := lookupKeyC row key
      if RESULT_KEYS.contains key || extras.any (fun kv => kv.1 == key) then
        pure extras
      else if !v.truthy then
        pure extras
      else
        match v with
        | .str s => if jsTrim s != "" then pure (extras ++ [(key, v)]) else pure extras
        | .num _ => throw "TypeError: row[key].trim is not a function") []

/-- `x || ""` on a scalar cell (part_000 address lookups). -/
def cellOrEmpty (v : Cell) : Cell := if v.truthy then v else .str ""

/-- The part_000 output record with scalar cells: fields that receive a raw
cell keep its scalar shape (string concatenation and the stage default are
always strings). -/
structure FormattedRowC where
  FirstName : String
  LastName : String
  Email : Cell
  Phone : Cell
  Street : Cell
  City : Cell
  ProvinceState : Cell
  PostalCodeZip : Cell
  DateOfBirth : Cell
  BorrowerStageName : String
  PartnerTypeName : Cell
  LeadSource : String
  Campaign : String
  TempNote : Cell
  FirmName : Cell
  extras : List (String × Cell)
deriving Repr, DecidableEq

/-- `formatRow` of part_000 on scalar-cell rows: identical logic to
`formatRowV1`, with the passthrough's possible `TypeError` surfaced as an
`Except.error`. -/
def formatRowV1C (row : CellRow) : Except String FormattedRowC := do
  let names := splitTrimmedName
    ((getColumnValueC row "First name").toStr ++ " " ++ (getColumnValueC row "Last name").toStr)
  let extras ← passthroughStrictC row
  pure
    { FirstName := names.1
      LastName := names.2
      Email := getColumnValueC row "Email"
      Phone := detectPhoneV1C row
      Street := cellOrEmpty (getColumnValueC row "Street")
      City := cellOrEmpty (getColumnValueC row "City")
      ProvinceState := cellOrEmpty (getColumnValueC row "Province")
      PostalCodeZip := cellOrEmpty (getColumnValueC row "PostalCode")
      DateOfBirth := detectDOBV1C row
      BorrowerStageName := DEFAULT_STAGE
      PartnerTypeName := getColumnValueC row "Profession"
      LeadSource := ""
      Campaign := ""
      TempNote := getColumnValueC row "Tag"
      FirmName := getColumnValueC row "Company name"
      extras := extras }

/-! ## Enhancement boundary -/

/-- A response of the enhancement service as seen by the core: an outright
failure (network / thrown error) or returned content. -/
inductive EnhanceResponse where
  | failure
  | content (s : String)

/-- Modelled from the spec: the enhancement call of section 4.7 is absent
from the sources under `src/`; per the spec, the core hands the mapped
record set to the external service and, on a response that is not a
parseable JSON array of records (`parse` returning `none`) or on any error,
falls back to the pre-enhancement record set unchanged.  The JSON parse of
the response text is the external collaborator `parse`. -/
def runEnhancement (parse : String → Option (List FormattedRow))
    (pre : List FormattedRow) : EnhanceResponse → List FormattedRow
  | .failure => pre
  | .content s =>
    match parse s with
    | some recs => recs
    | none => pre

/-! ## General lemmas about the embedding -/

/-- `split` never returns an empty part list. -/
theorem splitChars_ne_nil (p : Char → Bool) (l : List Char) : splitChars p l ≠ [] := by
  cases l with
  | nil => simp [splitChars]
  | cons c cs =>
    unfold splitChars
    cases splitChars p cs with
    | nil => simp
    | cons t ts => dsimp only []; split <;> simp

/-- The stage-validation step only ever emits an enumerated stage. -/
theorem validateStage_mem (o : Option String) :
    VALID_STAGES.contains (validateStage o) = true := by
  cases o with
  | none => decide
  | some s =>
    by_cases h : s ∈ VALID_STAGES
    · simp [validateStage, h]
    · simp [validateStage, h]
      decide

/-! ## C10, C3, C2, C9 -/

/-- C10: the mapping pass of every revision produces exactly one output
record per raw row — the output list has the same length as the input row
list, with no splitting or merging. -/
theorem claim_C10_row_count (rows : List RawRow) :
    (processRowsV1 rows).length = rows.length ∧
    (processRowsV2 rows).length = rows.length ∧
    (processRowsV3 rows).length = rows.length := by
  simp [processRowsV1, processRowsV2, processRowsV3]

/-- C3: the BorrowerStage field of every record produced by any of the
three mapping revisions is one of the four enumerated stage values — never
empty and never arbitrary text. -/
theorem claim_C3_stage_invariant (row : RawRow) :
    VALID_STAGES.contains (formatRowV1 row).BorrowerStageName = true ∧
    VALID_STAGES.contains (formatRowV2 row).BorrowerStageName = true ∧
    VALID_STAGES.contains (formatRowV3 row).BorrowerStageName = true := by
  refine ⟨?_, ?_, validateStage_mem (lookupKeyOpt row "BorrowerStage.Name")⟩
  · exact (by decide : VALID_STAGES.contains DEFAULT_STAGE = true)
  · exact (by decide : VALID_STAGES.contains DEFAULT_STAGE = true)

/-- C2: the stage-validation step returns its input unchanged exactly when
it is (case-sensitively, with no whitespace normalisation) one of the four
enumerated stage strings, and returns the default "Prospect" on every other
input, including an absent one. -/
theorem claim_C2_stage_validation (s : String) :
    ((s = "Active Lead" ∨ s = "Business Partner Only" ∨ s = "Prospect" ∨ s = "Client") →
      validateStage (some s) = s) ∧
    (s ≠ "Active Lead" → s ≠ "Business Partner Only" → s ≠ "Prospect" → s ≠ "Client" →
      validateStage (some s) = "Prospect") ∧
    validateStage none = "Prospect" := by
  refine ⟨?_, ?_, rfl⟩
  · rintro (rfl | rfl | rfl | rfl) <;> decide
  · intro h1 h2 h3 h4
    simp [validateStage, VALID_STAGES, DEFAULT_STAGE, h1, h2, h3, h4]

/-- C2 witness: the validation at concrete inputs — an exact enumerated
value passes through, a case-mismatched one falls back to the default. -/
theorem claim_C2_stage_validation_witness :
    validateStage (some "Client") = "Client" ∧
    validateStage (some "client") = "Prospect" :=
  ⟨(claim_C2_stage_validation "Client").1 (Or.inr (Or.inr (Or.inr rfl))),
   (claim_C2_stage_validation "client").2.1 (by decide) (by decide) (by decide) (by decide)⟩

/-- C9: whenever the enhancement service errors outright or returns content
the external JSON parse cannot read as a record array, the dataset returned
past the enhancement boundary is the pre-enhancement record set itself, and
the boundary is a total function (no exception escapes). -/
theorem claim_C9_enhancement_fallback (parse : String → Option (List FormattedRow))
    (pre : List FormattedRow) (resp : EnhanceResponse)
    (h : resp = .failure ∨ ∃ s, resp = .content s ∧ parse s = none) :
    runEnhancement parse pre resp = pre := by
  rcases h with rfl | ⟨s, rfl, hs⟩
  · rfl
  · simp [runEnhancement, hs]

/-- C9 witness: the fallback at a concrete unparseable response. -/
theorem claim_C9_enhancement_fallback_witness :
    runEnhancement (fun _ => none) [] (.content "not json") = [] :=
  claim_C9_enhancement_fallback (fun _ => none) [] (.content "not json")
    (Or.inr ⟨"not json", rfl, rfl⟩)

/-! ## Lookup and fold lemmas -/

/-- A cons entry with a different key is skipped by property lookup. -/
theorem lookupKey_cons_ne {p : String × String} {rest : RawRow} {k : String}
    (hp : (p.1 == k) = false) : lookupKey (p :: rest) k = lookupKey rest k := by
  simp only [lookupKey, List.find?, hp]

/-- A cons entry with the looked-up key is returned. -/
theorem lookupKey_cons_eq {p : String × String} {rest : RawRow} {k : String}
    (hp : (p.1 == k) = true) : lookupKey (p :: rest) k = p.2 := by
  simp only [lookupKey, List.find?, hp]

/-- Property lookup lands on the entry with key `k` when no earlier entry
carries that key. -/
theorem lookupKey_append_cons {pre : RawRow} (post : RawRow) (k v : String)
    (h : ∀ kv ∈ pre, kv.1 ≠ k) :
    lookupKey (pre ++ (k, v) :: post) k = v := by
  induction pre with
  | nil => simpa using lookupKey_cons_eq (p := (k, v)) (by simp)
  | cons p ps ih =>
    have hp : (p.1 == k) = false := beq_eq_false_iff_ne.mpr (h p (List.mem_cons_self _ _))
    rw [List.cons_append, lookupKey_cons_ne hp]
    exact ih (fun kv hkv => h kv (List.mem_cons_of_mem _ hkv))

/-- `Object.keys(row).find` lands on the key of the first satisfying entry. -/
theorem find?_keys_first {f : String → Bool} {pre : RawRow} (post : RawRow) (k v : String)
    (hpre : ∀ kv ∈ pre, f kv.1 = false) (hk : f k = true) :
    ((pre ++ (k, v) :: post).map Prod.fst).find? f = some k := by
  induction pre with
  | nil =>
    simp only [List.nil_append, List.map_cons]
    rw [List.find?_cons_of_pos _ hk]
  | cons p ps ih =>
    simp only [List.cons_append, List.map_cons]
    rw [List.find?_cons_of_neg _ (by simp [hpre p (List.mem_cons_self _ _)])]
    exact ih (fun kv h => hpre kv (List.mem_cons_of_mem _ h))

/-- An empty char list gives the empty string. -/
theorem string_toList_eq_nil {s : String} (h : s.toList = []) : s = "" := by
  cases s with
  | mk data =>
    have h2 : data = [] := h
    subst h2
    rfl

/-- A key whose lower-cased text contains a nonempty keyword is itself
nonempty (hence truthy in the `foundColumn ? … : ""` test). -/
theorem matching_key_ne_empty {k columnName : String} (hcn : columnName ≠ "")
    (hk : jsIncludes (jsToLower k) (jsToLower columnName) = true) : k ≠ "" := by
  intro hke
  subst hke
  have h1 : (jsToLower columnName).toList = [] := by
    simpa [jsIncludes, jsToLower, occursIn, List.isEmpty_iff] using hk
  have h2 : columnName.toList.map Char.toLower = [] := h1
  exact hcn (string_toList_eq_nil (List.map_eq_nil_iff.mp h2))

/-- The header resolver returns `""` when no key matches. -/
theorem getColumnValue_eq_of_no_match {row : RawRow} {columnName : String}
    (h : ∀ kv ∈ row, jsIncludes (jsToLower kv.1) (jsToLower columnName) = false) :
    getColumnValue row columnName = "" := by
  unfold getColumnValue
  rw [List.find?_eq_none.mpr ?_]
  intro x hx
  rcases List.mem_map.mp hx with ⟨kv, hkv, rfl⟩
  simp [h kv hkv]

/-- The header resolver returns the value of the first matching key in the
row's own key order. -/
theorem getColumnValue_first_match {pre : RawRow} (post : RawRow) (v : String)
    {k columnName : String} (hcn : columnName ≠ "")
    (hpre : ∀ kv ∈ pre, jsIncludes (jsToLower kv.1) (jsToLower columnName) = false)
    (hk : jsIncludes (jsToLower k) (jsToLower columnName) = true) :
    getColumnValue (pre ++ (k, v) :: post) columnName = v := by
  unfold getColumnValue
  rw [find?_keys_first post k v hpre hk]
  have hke : (k == "") = false := beq_eq_false_iff_ne.mpr (matching_key_ne_empty hcn hk)
  simp only [hke, Bool.false_eq_true, if_false]
  refine lookupKey_append_cons post k v ?_
  intro kv hkv heq
  have := hpre kv hkv
  rw [heq, hk] at this
  exact Bool.noConfusion this

/-- An overwriting fold leaves its accumulator alone over non-matching
keys. -/
theorem foldl_keep_of_no_match {m : String → Bool} {f : String → String}
    (ks : List String) (acc : String) (h : ∀ x ∈ ks, m x = false) :
    ks.foldl (fun a key => if m key then f key else a) acc = acc := by
  induction ks generalizing acc with
  | nil => rfl
  | cons x xs ih =>
    rw [List.foldl_cons]
    simp only [h x (List.mem_cons_self _ _), Bool.false_eq_true, if_false]
    exact ih acc (fun y hy => h y (List.mem_cons_of_mem _ hy))

/-- In an overwriting fold the last matching key determines the result. -/
theorem foldl_last_match {m : String → Bool} {f : String → String}
    (ks₁ ks₂ : List String) (k : String) (acc : String)
    (hk : m k = true) (h₂ : ∀ x ∈ ks₂, m x = false) :
    (ks₁ ++ k :: ks₂).foldl (fun a key => if m key then f key else a) acc = f k := by
  rw [List.foldl_append, List.foldl_cons]
  simp only [hk, if_true]
  exact foldl_keep_of_no_match ks₂ (f k) h₂

/-- With pairwise distinct keys, the entries before the distinguished one
carry different keys. -/
theorem nodup_pre_keys_ne {pre post : RawRow} {k v : String}
    (hnd : ((pre ++ (k, v) :: post).map Prod.fst).Nodup) :
    ∀ kv ∈ pre, kv.1 ≠ k := by
  intro kv hkv heq
  rw [List.map_append, List.map_cons] at hnd
  have h1 : kv.1 ∈ pre.map Prod.fst := List.mem_map_of_mem _ hkv
  exact (List.nodup_append.mp hnd).2.2 h1 (heq ▸ List.mem_cons_self k _)

/-! ## C1 -/

/-- C1 counterexample: with two phone-matching headers the part_000 phone
detection loop returns the value of the second (last) matching header in
key order, not the first one as the claim states for every mapped field. -/
theorem claim_C1_counterexample :
    (formatRowV1 [("Phone 1", "111"), ("Phone 2", "222")]).Phone = "222" ∧
    (formatRowV1 [("Phone 1", "111"), ("Phone 2", "222")]).Phone ≠ "111" := by
  constructor
  · rfl
  · decide

/-- C1 (amended): the `getColumnValue` header lookup returns the value of
the first key, in the row's own key order, whose name contains the keyword
as a case-insensitive substring, and `""` when no key matches; the
dedicated Date of Birth and Phone keyword detections, however, iterate over
all keys with overwriting assignment, so for them the last matching key in
key order wins. -/
theorem claim_C1_header_resolution :
    (∀ (pre post : RawRow) (k v columnName : String),
        columnName ≠ "" →
        (∀ kv ∈ pre, jsIncludes (jsToLower kv.1) (jsToLower columnName) = false) →
        jsIncludes (jsToLower k) (jsToLower columnName) = true →
        getColumnValue (pre ++ (k, v) :: post) columnName = v) ∧
    (∀ (row : RawRow) (columnName : String),
        (∀ kv ∈ row, jsIncludes (jsToLower kv.1) (jsToLower columnName) = false) →
        getColumnValue row columnName = "") ∧
    (∀ (pre post : RawRow) (k v : String),
        ((pre ++ (k, v) :: post).map Prod.fst).Nodup →
        isPhoneField k = true →
        (∀ kv ∈ post, isPhoneField kv.1 = false) →
        (formatRowV1 (pre ++ (k, v) :: post)).Phone = v) ∧
    (∀ (pre post : RawRow) (k v : String),
        ((pre ++ (k, v) :: post).map Prod.fst).Nodup →
        isDateOfBirthField k = true →
        (∀ kv ∈ post, isDateOfBirthField kv.1 = false) →
        (formatRowV1 (pre ++ (k, v) :: post)).DateOfBirth = normalizeDOB v) := by
  refine ⟨fun pre post k v cn hcn hpre hk => getColumnValue_first_match post v hcn hpre hk,
          fun row cn h => getColumnValue_eq_of_no_match h, ?_, ?_⟩
  · intro pre post k v hnd hk hpost
    show detectPhoneV1 (pre ++ (k, v) :: post) = v
    unfold detectPhoneV1
    rw [List.map_append, List.map_cons]
    rw [foldl_last_match (pre.map Prod.fst) (post.map Prod.fst) k "" hk ?_]
    · exact lookupKey_append_cons post k v (nodup_pre_keys_ne hnd)
    · intro x hx
      rcases List.mem_map.mp hx with ⟨kv, hkv, rfl⟩
      exact hpost kv hkv
  · intro pre post k v hnd hk hpost
    show detectDOBV1 (pre ++ (k, v) :: post) = normalizeDOB v
    unfold detectDOBV1
    rw [List.map_append, List.map_cons]
    rw [foldl_last_match (pre.map Prod.fst) (post.map Prod.fst) k "" hk ?_]
    · rw [lookupKey_append_cons post k v (nodup_pre_keys_ne hnd)]
    · intro x hx
      rcases List.mem_map.mp hx with ⟨kv, hkv, rfl⟩
      exact hpost kv hkv

/-- C1 witness: at concrete inputs, the first matching header wins for the
resolver, while the last matching header wins for the phone detection. -/
theorem claim_C1_header_resolution_witness :
    getColumnValue [("Fax", "9"), ("My Email", "a@b.c"), ("Email", "x")] "Email" = "a@b.c" ∧
    (formatRowV1 [("Mobile 1", "111"), ("Mobile 2", "222")]).Phone = "222" :=
  ⟨claim_C1_header_resolution.1 [("Fax", "9")] [("Email", "x")] "My Email" "a@b.c" "Email"
      (by decide) (by decide) (by decide),
   claim_C1_header_resolution.2.2.1 [("Mobile 1", "111")] [] "Mobile 2" "222"
      (by decide) (by decide) (by decide)⟩

/-! ## C4 -/

/-- The raw value the part_000 DOB loop resolves: the stored value of the
last DOB-matching key, `none` when no key matches. -/
def resolveDOBRawV1 (row : RawRow) : Option String :=
  (row.map Prod.fst).foldl
    (fun acc key => if isDateOfBirthField key then some (lookupKey row key) else acc) none

/-- The DOB detection is the best-effort normalisation of the resolved raw
value (`""` when nothing resolves). -/
theorem detectDOBV1_eq_resolve (row : RawRow) :
    detectDOBV1 row = (resolveDOBRawV1 row).elim "" normalizeDOB := by
  unfold detectDOBV1 resolveDOBRawV1
  have h : ∀ (ks : List String) (a : Option String),
      ks.foldl
          (fun acc key => if isDateOfBirthField key then normalizeDOB (lookupKey row key) else acc)
          (a.elim "" normalizeDOB)
        = (ks.foldl
            (fun acc key => if isDateOfBirthField key then some (lookupKey row key) else acc)
            a).elim "" normalizeDOB := by
    intro ks
    induction ks with
    | nil => intro a; rfl
    | cons x xs ih =>
      intro a
      rw [List.foldl_cons, List.foldl_cons]
      cases hx : isDateOfBirthField x with
      | true =>
        simp only [hx, if_true]
        exact ih (some (lookupKey row x))
      | false =>
        simp only [hx, Bool.false_eq_true, if_false]
        exact ih a
  simpa using h (row.map Prod.fst) none

/-- C4: whenever the part_000 mapper resolves a raw date-of-birth value, a
parseable raw value yields the ISO `YYYY-MM-DD` string of that calendar
date and an unparseable one is passed through unchanged; concretely,
"1990-05-14" maps to "1990-05-14" and "not a date" stays "not a date". -/
theorem claim_C4_dob_best_effort :
    (∀ (row : RawRow) (raw : String), resolveDOBRawV1 row = some raw →
        (∀ ymd, jsDateParse raw = some ymd →
          (formatRowV1 row).DateOfBirth = isoOfYmd ymd) ∧
        (jsDateParse raw = none → (formatRowV1 row).DateOfBirth = raw)) ∧
    (formatRowV1 [("Date of Birth", "1990-05-14")]).DateOfBirth = "1990-05-14" ∧
    (formatRowV1 [("Date of Birth", "not a date")]).DateOfBirth = "not a date" := by
  refine ⟨?_, rfl, rfl⟩
  intro row raw hres
  have hdob : (formatRowV1 row).DateOfBirth = detectDOBV1 row := rfl
  rw [hdob, detectDOBV1_eq_resolve, hres]
  constructor
  · intro ymd hp
    simp [Option.elim, normalizeDOB, hp]
  · intro hp
    simp [Option.elim, normalizeDOB, hp]

/-- C4 witness: the two branches at concrete rows — an ISO-parseable raw
value and an unparseable one. -/
theorem claim_C4_dob_best_effort_witness :
    (formatRowV1 [("DOB", "2000-01-02")]).DateOfBirth = isoOfYmd (2000, 1, 2) ∧
    (formatRowV1 [("Birth Date", "02.01.2000")]).DateOfBirth = "02.01.2000" :=
  ⟨(claim_C4_dob_best_effort.1 [("DOB", "2000-01-02")] "2000-01-02" (by decide)).1
      (2000, 1, 2) (by decide),
   (claim_C4_dob_best_effort.1 [("Birth Date", "02.01.2000")] "02.01.2000" (by decide)).2
      (by decide)⟩

/-! ## C5 -/

/-- One-step unfolding of `splitChars`. -/
theorem splitChars_cons (p : Char → Bool) (c : Char) (cs : List Char) :
    splitChars p (c :: cs) =
      match splitChars p cs with
      | [] => [[]]
      | t :: ts => if p c then [] :: t :: ts else (c :: t) :: ts := rfl

/-- Splitting a separator-free list returns the single segment. -/
theorem splitChars_no_sep {p : Char → Bool} {l : List Char}
    (h : ∀ c ∈ l, p c = false) : splitChars p l = [l] := by
  induction l with
  | nil => rfl
  | cons c cs ih =>
    rw [splitChars_cons, ih (fun d hd => h d (List.mem_cons_of_mem _ hd))]
    simp [h c (List.mem_cons_self _ _)]

/-- Splitting `a ++ sep :: b` with separator-free `a` cuts exactly at that
separator occurrence. -/
theorem splitChars_append_sep {p : Char → Bool} {a : List Char} (b : List Char) {sep : Char}
    (ha : ∀ c ∈ a, p c = false) (hsep : p sep = true) :
    splitChars p (a ++ sep :: b) = a :: splitChars p b := by
  induction a with
  | nil =>
    rw [List.nil_append, splitChars_cons]
    cases hb : splitChars p b with
    | nil => exact absurd hb (splitChars_ne_nil _ _)
    | cons t ts => simp [hsep]
  | cons c cs ih =>
    rw [List.cons_append, splitChars_cons, ih (fun d hd => ha d (List.mem_cons_of_mem _ hd))]
    simp [ha c (List.mem_cons_self _ _)]

/-- Rejoining a single-character split with that separator restores the
original list (`split(" ")` then `join(" ")` is the identity). -/
theorem joinWith_splitChars (sep : Char) (l : List Char) :
    joinWith [sep] (splitChars (fun c => c == sep) l) = l := by
  induction l with
  | nil => rfl
  | cons c cs ih =>
    rw [splitChars_cons]
    cases hb : splitChars (fun c => c == sep) cs with
    | nil => exact absurd hb (splitChars_ne_nil _ _)
    | cons t ts =>
      rw [hb] at ih
      by_cases hc : c = sep
      · subst hc
        simp only [beq_self_eq_true, if_true]
        simpa [joinWith] using ih
      · have hcf : (c == sep) = false := beq_eq_false_iff_ne.mpr hc
        simp only [hcf, Bool.false_eq_true, if_false]
        cases ts with
        | nil =>
          simp [joinWith] at ih ⊢
          rw [ih]
        | cons u us =>
          show (c :: t) ++ [sep] ++ joinWith [sep] (u :: us) = c :: cs
          have ih' : t ++ [sep] ++ joinWith [sep] (u :: us) = cs := ih
          rw [← ih']
          simp

/-- `String.mk` undoes `String.toList`. -/
theorem string_mk_toList (s : String) : String.mk s.toList = s := rfl

/-- C5 counterexample: the splitter cuts on the single space character and
keeps empty segments, so for the resolved full name "Jane  Doe" (a double
space, produced by a last-name cell with a leading space) the last name is
" Doe", not the "Doe" that whitespace tokenisation would give. -/
theorem claim_C5_counterexample :
    (formatRowV1 [("First name", "Jane"), ("Last name", " Doe")]).LastName = " Doe" ∧
    (formatRowV1 [("First name", "Jane"), ("Last name", " Doe")]).LastName ≠ "Doe" :=
  ⟨rfl, by decide⟩

/-- C5 (amended): on the trimmed resolved full name, FirstName is the
segment before the first space character and LastName is everything after
that space unchanged (empty segments from repeated spaces included, tabs
not treated as separators); a trimmed name without a space character
becomes FirstName whole with LastName empty.  "Jane Doe" still gives
"Jane"/"Doe" and "Madonna" gives "Madonna"/"". -/
theorem claim_C5_name_split :
    (∀ (row : RawRow) (a b : List Char),
        (jsTrim (getColumnValue row "First name" ++ " " ++
            getColumnValue row "Last name")).toList = a ++ ' ' :: b →
        (∀ c ∈ a, c ≠ ' ') →
        (formatRowV1 row).FirstName = String.mk a ∧
        (formatRowV1 row).LastName = String.mk b) ∧
    (∀ row : RawRow,
        (∀ c ∈ (jsTrim (getColumnValue row "First name" ++ " " ++
            getColumnValue row "Last name")).toList, c ≠ ' ') →
        (formatRowV1 row).FirstName =
          jsTrim (getColumnValue row "First name" ++ " " ++ getColumnValue row "Last name") ∧
        (formatRowV1 row).LastName = "") ∧
    ((formatRowV1 [("First name", "Jane Doe")]).FirstName = "Jane" ∧
     (formatRowV1 [("First name", "Jane Doe")]).LastName = "Doe") ∧
    ((formatRowV1 [("First name", "Madonna")]).FirstName = "Madonna" ∧
     (formatRowV1 [("First name", "Madonna")]).LastName = "") := by
  refine ⟨?_, ?_, ⟨rfl, rfl⟩, ⟨rfl, rfl⟩⟩
  · intro row a b h ha
    have ht : jsTrim (getColumnValue row "First name" ++ " " ++
        getColumnValue row "Last name") ≠ "" := by
      intro he
      rw [he] at h
      exact absurd h.symm (List.append_ne_nil_of_right_ne_nil a (List.cons_ne_nil _ _))
    have key : splitFullName row = (String.mk a, String.mk b) := by
      unfold splitFullName splitTrimmedName
      rw [if_neg ht, h,
        splitChars_append_sep b (fun c hc => beq_eq_false_iff_ne.mpr (ha c hc)) (by decide)]
      simp [joinWith_splitChars]
    exact ⟨by show (splitFullName row).1 = _; rw [key],
           by show (splitFullName row).2 = _; rw [key]⟩
  · intro row hns
    by_cases ht : jsTrim (getColumnValue row "First name" ++ " " ++
        getColumnValue row "Last name") = ""
    · have key : splitFullName row = ("", "") := by
        unfold splitFullName splitTrimmedName
        rw [if_pos ht]
      refine ⟨?_, by show (splitFullName row).2 = _; rw [key]⟩
      show (splitFullName row).1 = _
      rw [key, ht]
    · have key : splitFullName row =
          (jsTrim (getColumnValue row "First name" ++ " " ++ getColumnValue row "Last name"),
           "") := by
        unfold splitFullName splitTrimmedName
        rw [if_neg ht,
          splitChars_no_sep (fun c hc => beq_eq_false_iff_ne.mpr (hns c hc))]
        simp [joinWith, string_mk_toList]
      exact ⟨by show (splitFullName row).1 = _; rw [key],
             by show (splitFullName row).2 = _; rw [key]⟩

/-- C5 witness: the amended split at a concrete two-cell name. -/
theorem claim_C5_name_split_witness :
    (formatRowV1 [("First name", "Ada"), ("Last name", "M Lovelace")]).FirstName = "Ada" ∧
    (formatRowV1 [("First name", "Ada"), ("Last name", "M Lovelace")]).LastName = "M Lovelace" :=
  claim_C5_name_split.1 [("First name", "Ada"), ("Last name", "M Lovelace")]
    "Ada".toList "M Lovelace".toList (by decide) (by decide)

/-! ## C6 -/

/-- C6: the decomposer splits the combined address on comma or newline
(trimming each part); with at least 3 parts it assigns part 0 to the
street/Address field, part 1 to City, part 2 to Province and part 3 (when
present) to PostalCode; otherwise it splits on whitespace and assigns from
the tail inward — last token PostalCode, second-to-last Province,
third-to-last City, remainder joined as the street.  The concrete address
"123 Main St, Springfield, ON, A1B2C3" decomposes as stated. -/
theorem claim_C6_address_decomposition :
    (∀ (addr : String) (parts : List String),
        parts = (splitChars (fun c => c == ',' || c == '\n') addr.toList).map
            (fun l => jsTrim (String.mk l)) →
        3 ≤ parts.length →
        decomposeAddress addr =
          (parts.getD 0 "", parts.getD 1 "", parts.getD 2 "",
           if 3 < parts.length then parts.getD 3 "" else "")) ∧
    (∀ (addr : String) (parts : List String),
        parts = (splitChars (fun c => c == ',' || c == '\n') addr.toList).map
            (fun l => jsTrim (String.mk l)) →
        parts.length < 3 →
        ∀ (rest : List String) (c3 c2 c1 : String),
          jsSplitWsRuns addr = rest ++ [c3, c2, c1] →
          decomposeAddress addr = (String.intercalate " " rest, c3, c2, c1)) ∧
    ((formatRowV3 [("Address", "123 Main St, Springfield, ON, A1B2C3")]).Address
        = "123 Main St" ∧
     (formatRowV3 [("Address", "123 Main St, Springfield, ON, A1B2C3")]).City
        = "Springfield" ∧
     (formatRowV3 [("Address", "123 Main St, Springfield, ON, A1B2C3")]).Province
        = "ON" ∧
     (formatRowV3 [("Address", "123 Main St, Springfield, ON, A1B2C3")]).PostalCode
        = "A1B2C3") := by
  refine ⟨?_, ?_, rfl, rfl, rfl, rfl⟩
  · intro addr parts hp hlen
    subst hp
    unfold decomposeAddress
    rw [if_neg (Nat.not_lt.mpr hlen)]
  · intro addr parts hp hlen rest c3 c2 c1 hsp
    subst hp
    unfold decomposeAddress
    rw [if_pos hlen, hsp]
    have e1 : rest ++ [c3, c2, c1] = ((rest ++ [c3]) ++ [c2]) ++ [c1] := by simp
    rw [e1]
    simp [List.getLast?_concat, List.dropLast_concat]

/-- C6 witness: both strategies at concrete addresses — a comma-separated
address using the positional branch, a space-separated one using the
tail-inward branch. -/
theorem claim_C6_address_decomposition_witness :
    decomposeAddress "1 A St, B, CC" = ("1 A St", "B", "CC", "") ∧
    decomposeAddress "9 Z Rd Twn PR 12345" = ("9 Z Rd", "Twn", "PR", "12345") :=
  ⟨claim_C6_address_decomposition.1 "1 A St, B, CC" _ rfl (by decide),
   claim_C6_address_decomposition.2.1 "9 Z Rd Twn PR 12345" _ rfl (by decide)
     ["9", "Z", "Rd"] "Twn" "PR" "12345" (by decide)⟩

/-! ## C7 -/

/-- With distinct keys, property lookup returns the stored value of any
entry. -/
theorem lookupKey_of_nodup : ∀ {row : RawRow} {k v : String},
    (row.map Prod.fst).Nodup → (k, v) ∈ row → lookupKey row k = v := by
  intro row
  induction row with
  | nil => intro k v _ hmem; exact absurd hmem (List.not_mem_nil _)
  | cons p ps ih =>
    intro k v hnd hmem
    rw [List.map_cons, List.nodup_cons] at hnd
    rcases List.mem_cons.mp hmem with h | h
    · rw [← h]
      exact lookupKey_cons_eq (by simp)
    · have hk : k ∈ ps.map Prod.fst := by
        simpa using List.mem_map_of_mem Prod.fst h
      have hp : (p.1 == k) = false := by
        refine beq_eq_false_iff_ne.mpr ?_
        intro he
        exact hnd.1 (he ▸ hk)
      rw [lookupKey_cons_ne hp]
      exact ih hnd.2 h

/-- Fold steps that only ever append preserve membership. -/
theorem foldl_extras_mono {g : List (String × String) → String → List (String × String)}
    (hg : ∀ e k x, x ∈ e → x ∈ g e k) :
    ∀ (ks : List String) (e : List (String × String)) (x : String × String),
      x ∈ e → x ∈ ks.foldl g e := by
  intro ks
  induction ks with
  | nil => intro e x h; exact h
  | cons a as ih =>
    intro e x h
    rw [List.foldl_cons]
    exact ih (g e a) x (hg e a x h)

/-- Any invariant of the appended entries carries through the fold. -/
theorem foldl_extras_inv {g : List (String × String) → String → List (String × String)}
    (P : String × String → Prop)
    (hg : ∀ e k x, x ∈ g e k → x ∈ e ∨ P x) :
    ∀ (ks : List String) (e : List (String × String)) (x : String × String),
      x ∈ ks.foldl g e → x ∈ e ∨ P x := by
  intro ks
  induction ks with
  | nil => intro e x h; exact Or.inl h
  | cons a as ih =>
    intro e x h
    rw [List.foldl_cons] at h
    rcases ih (g e a) x h with h1 | h2
    · exact hg e a x h1
    · exact Or.inr h2

/-- A fold whose step appends only at its own key, and does append the
distinguished entry when reached with no earlier entry at that key,
produces that entry. -/
theorem foldl_extras_add {g : List (String × String) → String → List (String × String)}
    {k : String} {w : String × String}
    (hmono : ∀ e k' x, x ∈ e → x ∈ g e k')
    (hshape : ∀ e k' x, x ∈ g e k' → x ∈ e ∨ x.1 = k')
    (hadd : ∀ e, (∀ x ∈ e, x.1 ≠ k) → w ∈ g e k) :
    ∀ (ks : List String) (e : List (String × String)),
      k ∈ ks → (∀ x ∈ e, x.1 ≠ k) → w ∈ ks.foldl g e := by
  intro ks
  induction ks with
  | nil => intro e h; exact absurd h (List.not_mem_nil k)
  | cons a as ih =>
    intro e hks he
    rw [List.foldl_cons]
    by_cases hak : a = k
    · subst hak
      exact foldl_extras_mono hmono as (g e a) w (hadd e he)
    · have hks' : k ∈ as := by
        rcases List.mem_cons.mp hks with h | h
        · exact absurd h.symm hak
        · exact h
      refine ih (g e a) hks' ?_
      intro x hx hxk
      rcases hshape e a x hx with hxe | hxa
      · exact he x hxe hxk
      · exact hak (hxa.symm.trans hxk)

/-- The strict passthrough step keeps existing entries. -/
theorem ptStrict_step_mono (row : RawRow) (e : List (String × String)) (k' : String)
    (x : String × String) (hx : x ∈ e) :
    x ∈ (if !(RESULT_KEYS.contains k' || e.any (fun kv => kv.1 == k')) &&
          lookupKey row k' != "" && jsTrim (lookupKey row k') != "" then
          e ++ [(k', lookupKey row k')] else e) := by
  split
  · exact List.mem_append_left _ hx
  · exact hx

/-- The strict passthrough step appends only at its own key, and only when
that key is no known field name. -/
theorem ptStrict_step_shape (row : RawRow) (e : List (String × String)) (k' : String)
    (x : String × String)
    (hx : x ∈ (if !(RESULT_KEYS.contains k' || e.any (fun kv => kv.1 == k')) &&
          lookupKey row k' != "" && jsTrim (lookupKey row k') != "" then
          e ++ [(k', lookupKey row k')] else e)) :
    x ∈ e ∨ (x.1 = k' ∧ RESULT_KEYS.contains k' = false) := by
  split at hx
  case isTrue hc =>
    rcases List.mem_append.mp hx with h | h
    · exact Or.inl h
    · simp at h
      subst h
      refine Or.inr ⟨rfl, ?_⟩
      simp only [Bool.and_eq_true, Bool.not_eq_true', Bool.or_eq_false_iff] at hc
      exact hc.1.1.1
  case isFalse => exact Or.inl hx

/-- The strict passthrough step does append an unmapped nonempty entry when
no earlier extra carries its key. -/
theorem ptStrict_step_add (row : RawRow) (e : List (String × String)) {k v : String}
    (hlk : lookupKey row k = v) (hknown : RESULT_KEYS.contains k = false)
    (hv : jsTrim v ≠ "") (he : ∀ x ∈ e, x.1 ≠ k) :
    (k, v) ∈ (if !(RESULT_KEYS.contains k || e.any (fun kv => kv.1 == k)) &&
          lookupKey row k != "" && jsTrim (lookupKey row k) != "" then
          e ++ [(k, lookupKey row k)] else e) := by
  have hvne : v ≠ "" := fun heq => hv (by rw [heq]; rfl)
  have h2 : e.any (fun kv => kv.1 == k) = false := by
    rw [List.any_eq_false]
    intro x hx
    simp [beq_eq_false_iff_ne.mpr (he x hx)]
  have hk2 : k ∉ RESULT_KEYS := by simpa using hknown
  rw [hlk, if_pos (by simp [hknown, hk2, h2, hvne, hv])]
  exact List.mem_append_right _ (List.mem_singleton.mpr rfl)

/-- The permissive passthrough step keeps existing entries. -/
theorem ptAll_step_mono (row : RawRow) (e : List (String × String)) (k' : String)
    (x : String × String) (hx : x ∈ e) :
    x ∈ (if !(RESULT_KEYS.contains k' || e.any (fun kv => kv.1 == k')) then
          e ++ [(k', lookupKey row k')] else e) := by
  split
  · exact List.mem_append_left _ hx
  · exact hx

/-- The permissive passthrough step appends only at its own key, and only
when that key is no known field name. -/
theorem ptAll_step_shape (row : RawRow) (e : List (String × String)) (k' : String)
    (x : String × String)
    (hx : x ∈ (if !(RESULT_KEYS.contains k' || e.any (fun kv => kv.1 == k')) then
          e ++ [(k', lookupKey row k')] else e)) :
    x ∈ e ∨ (x.1 = k' ∧ RESULT_KEYS.contains k' = false) := by
  split at hx
  case isTrue hc =>
    rcases List.mem_append.mp hx with h | h
    · exact Or.inl h
    · simp at h
      subst h
      refine Or.inr ⟨rfl, ?_⟩
      simp only [Bool.not_eq_true', Bool.or_eq_false_iff] at hc
      exact hc.1
  case isFalse => exact Or.inl hx

/-- The permissive passthrough step does append an unmapped entry when no
earlier extra carries its key. -/
theorem ptAll_step_add (row : RawRow) (e : List (String × String)) {k v : String}
    (hlk : lookupKey row k = v) (hknown : RESULT_KEYS.contains k = false)
    (he : ∀ x ∈ e, x.1 ≠ k) :
    (k, v) ∈ (if !(RESULT_KEYS.contains k || e.any (fun kv => kv.1 == k)) then
          e ++ [(k, lookupKey row k)] else e) := by
  have h2 : e.any (fun kv => kv.1 == k) = false := by
    rw [List.any_eq_false]
    intro x hx
    simp [beq_eq_false_iff_ne.mpr (he x hx)]
  have hk2 : k ∉ RESULT_KEYS := by simpa using hknown
  rw [hlk, if_pos (by simp [hknown, hk2, h2])]
  exact List.mem_append_right _ (List.mem_singleton.mpr rfl)

/-- The strict passthrough of part_000 carries every unmapped, nonempty
(key, value) pair of a distinct-key row into the extension area. -/
theorem passthroughStrict_mem {row : RawRow} {k v : String}
    (hnd : (row.map Prod.fst).Nodup) (hmem : (k, v) ∈ row)
    (hknown : RESULT_KEYS.contains k = false) (hv : jsTrim v ≠ "") :
    (k, v) ∈ passthroughStrict row := by
  have hlk : lookupKey row k = v := lookupKey_of_nodup hnd hmem
  unfold passthroughStrict
  exact foldl_extras_add
    (fun e k' x hx => ptStrict_step_mono row e k' x hx)
    (fun e k' x hx => (ptStrict_step_shape row e k' x hx).imp_right And.left)
    (fun e he => ptStrict_step_add row e hlk hknown hv he)
    (row.map Prod.fst) []
    (by simpa using List.mem_map_of_mem Prod.fst hmem)
    (fun x hx => absurd hx (List.not_mem_nil x))

/-- The permissive passthrough of the first page.tsx revision carries every
unmapped (key, value) pair of a distinct-key row into the extension area,
empty or not. -/
theorem passthroughAll_mem {row : RawRow} {k v : String}
    (hnd : (row.map Prod.fst).Nodup) (hmem : (k, v) ∈ row)
    (hknown : RESULT_KEYS.contains k = false) :
    (k, v) ∈ passthroughAll row := by
  have hlk : lookupKey row k = v := lookupKey_of_nodup hnd hmem
  unfold passthroughAll
  exact foldl_extras_add
    (fun e k' x hx => ptAll_step_mono row e k' x hx)
    (fun e k' x hx => (ptAll_step_shape row e k' x hx).imp_right And.left)
    (fun e he => ptAll_step_add row e hlk hknown he)
    (row.map Prod.fst) []
    (by simpa using List.mem_map_of_mem Prod.fst hmem)
    (fun x hx => absurd hx (List.not_mem_nil x))

/-- Entries of the strict extension area never carry a known field name. -/
theorem passthroughStrict_keys {row : RawRow} :
    ∀ x ∈ passthroughStrict row, RESULT_KEYS.contains x.1 = false := by
  intro x hx
  unfold passthroughStrict at hx
  refine (foldl_extras_inv (fun y => RESULT_KEYS.contains y.1 = false)
      (fun e k' y hy =>
        (ptStrict_step_shape row e k' y hy).imp_right
          (fun h => by show RESULT_KEYS.contains y.1 = false; rw [h.1]; exact h.2))
      (row.map Prod.fst) [] x hx).resolve_left (List.not_mem_nil x)

/-- Entries of the permissive extension area never carry a known field
name. -/
theorem passthroughAll_keys {row : RawRow} :
    ∀ x ∈ passthroughAll row, RESULT_KEYS.contains x.1 = false := by
  intro x hx
  unfold passthroughAll at hx
  refine (foldl_extras_inv (fun y => RESULT_KEYS.contains y.1 = false)
      (fun e k' y hy =>
        (ptAll_step_shape row e k' y hy).imp_right
          (fun h => by show RESULT_KEYS.contains y.1 = false; rw [h.1]; exact h.2))
      (row.map Prod.fst) [] x hx).resolve_left (List.not_mem_nil x)

/-- C7: every raw key of a (distinct-key) row that is not a known output
field name lands verbatim in the output record's extension area, keyed by
its original header text — unconditionally in the permissive revision, and
when its value is nonempty after trimming in the strict revision — and the
passthrough never touches a known output field: the extension area never
carries a known field name (the populated fields live in the record
proper). -/
theorem claim_C7_passthrough :
    (∀ (row : RawRow) (k v : String), (row.map Prod.fst).Nodup → (k, v) ∈ row →
        RESULT_KEYS.contains k = false →
        (k, v) ∈ (formatRowV2 row).extras) ∧
    (∀ (row : RawRow) (k v : String), (row.map Prod.fst).Nodup → (k, v) ∈ row →
        RESULT_KEYS.contains k = false → jsTrim v ≠ "" →
        (k, v) ∈ (formatRowV1 row).extras) ∧
    (∀ (row : RawRow) (x : String × String), x ∈ (formatRowV1 row).extras →
        RESULT_KEYS.contains x.1 = false) ∧
    (∀ (row : RawRow) (x : String × String), x ∈ (formatRowV2 row).extras →
        RESULT_KEYS.contains x.1 = false) := by
  refine ⟨?_, ?_, ?_, ?_⟩
  · intro row k v hnd hmem hknown
    exact passthroughAll_mem hnd hmem hknown
  · intro row k v hnd hmem hknown hv
    exact passthroughStrict_mem hnd hmem hknown hv
  · intro row x hx
    exact passthroughStrict_keys x hx
  · intro row x hx
    exact passthroughAll_keys x hx

/-- C7 witness: a concrete unrecognized column flows into both extension
areas, and its header is no known field name. -/
theorem claim_C7_passthrough_witness :
    ("FavColor", "blue") ∈ (formatRowV2 [("FavColor", "blue")]).extras ∧
    ("FavColor", "blue") ∈ (formatRowV1 [("FavColor", "blue")]).extras ∧
    RESULT_KEYS.contains "FavColor" = false ∧
    RESULT_KEYS.contains "FavColor" = false :=
  ⟨claim_C7_passthrough.1 [("FavColor", "blue")] "FavColor" "blue"
      (by decide) (by decide) (by decide),
   claim_C7_passthrough.2.1 [("FavColor", "blue")] "FavColor" "blue"
      (by decide) (by decide) (by decide) (by decide),
   claim_C7_passthrough.2.2.1 [("FavColor", "blue")] ("FavColor", "blue") (by decide),
   claim_C7_passthrough.2.2.2 [("FavColor", "blue")] ("FavColor", "blue") (by decide)⟩

/-! ## C8 -/

/-- A monadic fold over `Except` whose every step succeeds succeeds. -/
theorem foldlM_except_ok {α β : Type} (g : β → α → Except String β)
    (hg : ∀ e a, ∃ e', g e a = .ok e') :
    ∀ (ks : List α) (e : β), ∃ e', List.foldlM g e ks = .ok e' := by
  intro ks
  induction ks with
  | nil => intro e; exact ⟨e, rfl⟩
  | cons a as ih =>
    intro e
    obtain ⟨e1, he1⟩ := hg e a
    obtain ⟨e2, he2⟩ := ih e1
    refine ⟨e2, ?_⟩
    rw [List.foldlM_cons, he1]
    exact he2

/-- On an all-string row every lookup yields a string cell. -/
theorem lookupKeyC_isStr {row : CellRow} (h : ∀ kv ∈ row, kv.2.isStr = true) (k : String) :
    (lookupKeyC row k).isStr = true := by
  unfold lookupKeyC
  cases hf : row.find? (fun kv => kv.1 == k) with
  | none => rfl
  | some kv => exact h kv (List.mem_of_find?_eq_some hf)

/-- The strict passthrough never throws on an all-string row: the `.trim()`
call only ever receives a string. -/
theorem passthroughStrictC_ok {row : CellRow} (h : ∀ kv ∈ row, kv.2.isStr = true) :
    ∃ e, passthroughStrictC row = .ok e := by
  unfold passthroughStrictC
  refine foldlM_except_ok _ ?_ (row.map Prod.fst) []
  intro e key
  have hstr := lookupKeyC_isStr h key
  dsimp only
  split
  · exact ⟨e, rfl⟩
  split
  · exact ⟨e, rfl⟩
  cases hv : lookupKeyC row key with
  | str s =>
    show ∃ e', (if (jsTrim s != "") = true then
        (pure (e ++ [(key, Cell.str s)]) : Except String (List (String × Cell)))
      else pure e) = .ok e'
    by_cases hts : (jsTrim s != "") = true
    · exact ⟨e ++ [(key, Cell.str s)], by rw [if_pos hts]; rfl⟩
    · exact ⟨e, by rw [if_neg hts]; rfl⟩
  | num n =>
    rw [hv] at hstr
    exact absurd hstr (by simp [Cell.isStr])

/-- C8 counterexample: on the scalar-cell row `{"Age": 42}` — a numeric
value in a column no heuristic recognises — the part_000 mapper reaches
`row[key].trim()` in the strict passthrough and throws a TypeError, so the
per-row mapping is not total on rows with non-string scalar cells, and the
failure aborts the whole mapping pass rather than one field. -/
theorem claim_C8_counterexample :
    formatRowV1C [("Age", Cell.num 42)] =
      .error "TypeError: row[key].trim is not a function" := rfl

/-- C8 (amended): the part_000 per-row mapping is total on every raw row
whose cells are all strings — a parsing failure within a field degrades to
a raw or empty value and never throws — but a numeric cell in an
unrecognised, truthy column reaches the strict passthrough's `.trim()`
call and throws, failing the whole row (and file). -/
theorem claim_C8_totality (row : CellRow) (h : ∀ kv ∈ row, kv.2.isStr = true) :
    ∃ r, formatRowV1C row = .ok r := by
  unfold formatRowV1C
  obtain ⟨e, he⟩ := passthroughStrictC_ok h
  rw [he]
  exact ⟨_, rfl⟩

/-- C8 witness: totality at a concrete all-string row. -/
theorem claim_C8_totality_witness :
    ∃ r, formatRowV1C [("First name", Cell.str "Jo"), ("Note", Cell.str "hi")] = .ok r :=
  claim_C8_totality [("First name", Cell.str "Jo"), ("Note", Cell.str "hi")] (by decide)

end ImportReformat

